import Mathlib

/-!
Verification development for marimo's cell-compilation layer
(`marimo/_ast/compiler.py`) and the file manager's rename operation
(`marimo/_server/file_manager.py`).

The Python code is shallowly embedded: pure helper functions become Lean
functions, and `compile_cell` becomes a Lean function from its inputs
(and the results of the external host facilities it calls) to the
`CellImpl` record it returns.  External collaborators that are not part
of the two embedded source files — CPython's parser/tokenizer/`hash`
builtin, the `ScopedVisitor` scope-analysis pass, `is_local`,
`get_tmpdir`, and pytest's `rewrite_asserts` — are passed in as data
(the parsed statement list, the token stream, the visitor result) or as
function-valued fields of a `Host` record, exactly at the points where
the source calls them.
-/

namespace Marimo

/-- Model of a Python expression node appearing as the value of an
`ast.Expr` statement.  `constNone` is `ast.Constant(value=None)`; all
other expressions are abstract atoms (their internals are never
inspected by `compile_cell`). -/
inductive PExpr where
  | constNone : PExpr
  | atom : Nat → PExpr
deriving DecidableEq

/-- The statement shapes `compile_cell` and its helpers discriminate on:
`ast.Expr`, `ast.FunctionDef`, `ast.AsyncFunctionDef`, `ast.ClassDef`,
`ast.Return`, `ast.Import`, `ast.ImportFrom`, and everything else. -/
inductive StmtKind where
  | exprStmt : PExpr → StmtKind
  | functionDef : String → StmtKind
  | asyncFunctionDef : String → StmtKind
  | classDef : String → StmtKind
  | returnStmt : StmtKind
  | importStmt : StmtKind
  | importFromStmt : StmtKind
  | otherStmt : StmtKind
deriving DecidableEq

/-- A top-level statement of the parsed module, with the location fields
`compile_cell` reads (`lineno`, `end_col_offset`; the latter is
`Optional[int]` on CPython AST nodes). -/
structure Stmt where
  kind : StmtKind
  lineno : Int
  end_col_offset : Option Int
deriving DecidableEq

/-- Model of the `ast.Expression` wrapper built for the trailing
expression (lines 195-213 of `compiler.py`), carrying the location
attributes the source assigns to it. -/
structure PExpression where
  value : PExpr
  lineno : Int
  col_offset : Option Int
  end_col_offset : Option Int
deriving DecidableEq

/-- Token types of CPython's `tokenize` that `ends_with_semicolon`
treats as structural/insignificant, plus `OTHER` for everything else. -/
inductive TokType where
  | ENDMARKER | NEWLINE | NL | COMMENT | INDENT | DEDENT | ENCODING | OTHER
deriving DecidableEq

/-- A token produced by the host tokenizer: its type and its text. -/
structure Tok where
  type : TokType
  string : String
deriving DecidableEq

/-- Modelled from the spec: `ImportData` lives in `marimo/_ast/visitor.py`,
which is not among the shown sources.  Per the spec it is the descriptor
of a single import binding — the module, the imported symbol (absent for
plain module imports), and the bound name (`definition`, the alias) —
compared by structural equality of all components. -/
structure ImportData where
  definition : String
  module : String
  imported_symbol : Option String
deriving DecidableEq

/-- Modelled from the spec: the per-name metadata record produced by the
scope visitor; `compile_cell` only reads its `import_data` field. -/
structure VarDatum where
  import_data : Option ImportData
deriving DecidableEq

/-- Modelled from the spec: the outputs of the external `ScopedVisitor`
scope-analysis pass (defined names, referenced names, deleted names, a
language tag, and per-name metadata keyed by defined name). -/
structure VisitorResult where
  defs : Finset String
  refs : Finset String
  deleted_refs : Finset String
  language : String
  variable_data : List (String × List VarDatum)

/-- `SourcePosition`: a real file location used to re-anchor a cell. -/
structure SourcePosition where
  filename : String
  lineno : Int
  col_offset : Int
deriving DecidableEq

/-- `ImportWorkspace`: whether the cell is purely imports, and which of
its definitions are carried-over imports from a prior compilation. -/
structure ImportWorkspace where
  is_import_block : Bool
  imported_defs : Finset String
deriving DecidableEq

/-- The compiled statement body: the statement list handed to the host
`compile` builtin together with the filename it is compiled under. -/
structure BodyArtifact where
  stmts : List Stmt
  filename : String
deriving DecidableEq

/-- The compiled trailing-expression evaluator: the `ast.Expression`
handed to the host `compile` builtin and the filename used. -/
structure ExprArtifact where
  expression : PExpression
  filename : String
deriving DecidableEq

/-- The `CellImpl` record assembled by `compile_cell`.  Field names and
defaults follow the source (`import_workspace` and `_test` are omitted
by the empty-body return and take their dataclass defaults). -/
structure CellImpl where
  key : Nat
  code : String
  mod : List Stmt
  defs : Finset String
  refs : Finset String
  temporaries : Finset String
  variable_data : List (String × List VarDatum)
  import_workspace : ImportWorkspace := { is_import_block := false, imported_defs := ∅ }
  deleted_refs : Finset String
  language : String
  body : Option BodyArtifact
  last_expr : Option ExprArtifact
  cell_id : String
  _test : Bool := false

/-- External host facilities consumed by `compile_cell`, passed as data:
the builtin string `hash`, `marimo._ast.variables.is_local`, pytest's
`rewrite_asserts` (which either returns a rewritten tree or raises), and
`get_tmpdir`. -/
structure Host where
  hashStr : String → Nat
  is_local : String → Bool
  rewrite_asserts : List Stmt → Except Unit (List Stmt)
  tmpdir : String

/-- `code_key`: `return hash(code)`. -/
def code_key (host : Host) (code : String) : Nat :=
  host.hashStr code

set_option maxHeartbeats 1000000

/-- The character map performed by line 161: a non-breaking space
becomes a regular space, every other character is unchanged. -/
def nbmap (c : Char) : Char := if c = '\u00A0' then ' ' else c

/-- Line 161: `code = code.replace(chr(0xA0), " ")` — non-breaking
spaces become regular spaces (a single-character replacement, hence a
character map). -/
def normalize_nbsp (code : String) : String :=
  String.mk (code.data.map nbmap)

/-- The line boundaries recognized by Python's `str.splitlines`:
`\n`, `\r`, `\v` (`\x0B`), `\f` (`\x0C`), the file/group/record
separators `\x1C`-`\x1E`, the next-line character `\x85`, and the
Unicode line/paragraph separators U+2028 and U+2029 (`\r\n` is handled
as a single boundary by `slAux`). -/
def isLineBreak (c : Char) : Bool :=
  c = '\n' || c = '\r' || c = '\x0B' || c = '\x0C' || c = '\x1C' ||
    c = '\x1D' || c = '\x1E' || c = '\x85' || c = '\u2028' || c = '\u2029'

/-- Helper for `splitlinesCount`: counts the lines of a character list
the way Python's `str.splitlines` does, treating `\r\n` as one
boundary; the flag records whether an unterminated final line has been
started. -/
def slAux : List Char → Bool → Nat
  | [], started => if started then 1 else 0
  | '\r' :: '\n' :: cs, _ => 1 + slAux cs false
  | c :: cs, _ => if isLineBreak c then 1 + slAux cs false else slAux cs true

/-- `len(code.splitlines())`. -/
def splitlinesCount (s : String) : Nat :=
  slAux s.data false

/-- The token-type set skipped by `ends_with_semicolon` (lines 74-82). -/
def structuralTok (t : TokType) : Bool :=
  match t with
  | .ENDMARKER | .NEWLINE | .NL | .COMMENT | .INDENT | .DEDENT | .ENCODING => true
  | .OTHER => false

/-- The scan of `ends_with_semicolon` over the reversed token list:
skip structural tokens; at the first significant token, answer whether
its text is `";"`; answer `False` if none remains. -/
def ends_with_semicolon_loop : List Tok → Bool
  | [] => false
  | t :: rest =>
    if structuralTok t.type then ends_with_semicolon_loop rest
    else t.string == ";"

/-- `ends_with_semicolon(code)`: the source tokenizes `code.strip()`
with the host tokenizer and scans the tokens from the end; the token
stream produced by the host is the argument here. -/
def ends_with_semicolon (tokens : List Tok) : Bool :=
  ends_with_semicolon_loop tokens.reverse

/-- Is the statement a function/class definition whose name,
lowercased, starts with `"test"`?  (Lines 94-99.) -/
def is_test_def (s : Stmt) : Bool :=
  match s.kind with
  | .functionDef name => name.toLower.startsWith "test"
  | .asyncFunctionDef name => name.toLower.startsWith "test"
  | .classDef name => name.toLower.startsWith "test"
  | _ => false

/-- Is the statement an `ast.Return`? -/
def is_return (s : Stmt) : Bool :=
  match s.kind with
  | .returnStmt => true
  | _ => false

/-- Is the statement an `ast.Import` or `ast.ImportFrom`? -/
def is_import_stmt (s : Stmt) : Bool :=
  match s.kind with
  | .importStmt => true
  | .importFromStmt => true
  | _ => false

/-- The `for` loop of `contains_only_tests`: an `ast.Return` returns
`True` immediately; a statement that is not a function/class definition
returns `False`; a definition not named `test*` returns `False`;
falling off the end of a (non-empty) scope returns `True`. -/
def contains_only_tests_loop : List Stmt → Bool
  | [] => true
  | node :: rest =>
    match node.kind with
    | .returnStmt => true
    | .functionDef name =>
      if name.toLower.startsWith "test" then contains_only_tests_loop rest else false
    | .asyncFunctionDef name =>
      if name.toLower.startsWith "test" then contains_only_tests_loop rest else false
    | .classDef name =>
      if name.toLower.startsWith "test" then contains_only_tests_loop rest else false
    | _ => false

/-- `contains_only_tests(tree)` over the module body (lines 88-100);
the trailing `return bool(scope)` makes the empty body answer `False`. -/
def contains_only_tests (scope : List Stmt) : Bool :=
  match scope with
  | [] => false
  | _ => contains_only_tests_loop scope

/-- The `None`-valued synthesized expression of the `else` branch
(lines 204-210) with the column attributes assigned after the branch
(lines 212-213): `lineno = len(code.splitlines()) + 1`, columns taken
from the final statement's `end_col_offset`. -/
def noneExpression (code : String) (finalExpr : Stmt) : PExpression :=
  { value := .constNone
    lineno := (splitlinesCount code : Int) + 1
    col_offset := finalExpr.end_col_offset
    end_col_offset := finalExpr.end_col_offset }

/-- Lines 195-213: split the trailing value.  If the last top-level
statement is a bare expression and the token stream does not end in a
semicolon, pop it off the body and wrap it in an `ast.Expression`
keeping its `lineno`; otherwise keep the body and synthesize a
`None`-valued expression one line past the end of `code`. -/
def split_trailing (code : String) (module : List Stmt) (tokens : List Tok) :
    List Stmt × PExpression :=
  match module.getLast? with
  | none => (module, { value := .constNone, lineno := 1, col_offset := none, end_col_offset := none })
  | some finalExpr =>
    match finalExpr.kind with
    | .exprStmt val =>
      if ends_with_semicolon tokens then
        (module, noneExpression code finalExpr)
      else
        (module.dropLast,
         { value := val
           lineno := finalExpr.lineno
           col_offset := finalExpr.end_col_offset
           end_col_offset := finalExpr.end_col_offset })
    | _ => (module, noneExpression code finalExpr)

/-- The effect of `fix_source_position` on a top-level statement's
tracked fields: `lineno` is shifted by the line offset, and
`end_col_offset` is shifted by the column offset when it is an integer
and left untouched when it is `None` (lines 128-145). -/
def fix_stmt (sp : SourcePosition) (s : Stmt) : Stmt :=
  { s with
    lineno := s.lineno + sp.lineno
    end_col_offset := s.end_col_offset.map (· + sp.col_offset) }

/-- `get_filename` builds `os.path.join(get_tmpdir(), basename + suffix
+ ".py")`; `os.path.join` inserts a separator only when the directory
does not already end in one. -/
def joinPath (a b : String) : String :=
  if a.data.getLast? = some '/' then a ++ b else a ++ "/" ++ b

/-- `get_filename(cell_id, suffix)` (lines 57-60). -/
def get_filename (tmpdir : String) (cell_id : String) (sfx : String) : String :=
  joinPath tmpdir ("__marimo__cell_" ++ cell_id ++ "_" ++ sfx ++ ".py")

/-- The dict comprehension of lines 253-257: for each externally
visible name, look up its visitor metadata, keeping only names that
have some. -/
def project_variable_data (nonlocals : Finset String)
    (vdata : List (String × List VarDatum)) : List (String × List VarDatum) :=
  (nonlocals.sort (· ≤ ·)).filterMap fun n => (vdata.lookup n).map fun d => (n, d)

/-- The nested loop of lines 262-271: collect the `definition` of
every import descriptor attached to the projected variable data that
is structurally equal to a descriptor in `carried_imports`. -/
def carried_import_defs (vdata : List (String × List VarDatum))
    (carried : List ImportData) : Finset String :=
  (vdata.flatMap fun p =>
    p.2.filterMap fun datum =>
      match datum.import_data with
      | none => none
      | some idat => if idat ∈ carried then some idat.definition else none).toFinset

/-- `compile_cell` (lines 149-292).  The parsed module body (produced
by the host parser from the normalized code), the token stream
(produced by the host tokenizer from the stripped normalized code) and
the visitor result are inputs, standing for the calls to the external
parser, tokenizer and `ScopedVisitor`.  The host bytecode compiles of
lines 244-249 are fallible in the host (a top-level bare return parses
under `PyCF_ONLY_AST` but makes line 244 raise `SyntaxError`); the
model records what is handed to them, and a theorem about an input on
which compilation completes carries that as an explicit hypothesis. -/
def compile_cell (host : Host) (code0 : String) (cell_id : String)
    (module : List Stmt) (tokens : List Tok) (v : VisitorResult)
    (source_position : Option SourcePosition)
    (carried_imports : Option (List ImportData))
    (test_rewrite : Bool) : CellImpl :=
  let code := normalize_nbsp code0
  if module.isEmpty then
    { key := host.hashStr ""
      code := code
      mod := module
      defs := ∅
      refs := ∅
      temporaries := ∅
      variable_data := []
      deleted_refs := ∅
      language := "python"
      body := none
      last_expr := none
      cell_id := cell_id }
  else
    let is_test := contains_only_tests module
    let is_import_block := module.all is_import_stmt
    let original_module := module
    let split := split_trailing code module tokens
    let fixedAndName : List Stmt × PExpression × String :=
      match source_position with
      | some sp => ((split.1.map (fix_stmt sp)), split.2, sp.filename)
      | none => (split.1, split.2, get_filename host.tmpdir cell_id "")
    let rewritten : List Stmt :=
      if is_test || test_rewrite then
        match host.rewrite_asserts fixedAndName.1 with
        | .ok m => m
        | .error _ => fixedAndName.1
      else fixedAndName.1
    let nonlocals := v.defs.filter (fun n => host.is_local n = false)
    let temporaries := v.defs \ nonlocals
    let variable_data := project_variable_data nonlocals v.variable_data
    let imported_defs : Finset String :=
      match carried_imports with
      | some ci => if is_import_block then carried_import_defs variable_data ci else ∅
      | none => ∅
    { key := code_key host code
      code := code
      mod := original_module
      defs := nonlocals
      refs := v.refs
      temporaries := temporaries
      variable_data := variable_data
      import_workspace := { is_import_block := is_import_block, imported_defs := imported_defs }
      deleted_refs := v.deleted_refs
      language := v.language
      body := some { stmts := rewritten, filename := fixedAndName.2.2 }
      last_expr := some { expression := fixedAndName.2.1, filename := fixedAndName.2.2 }
      cell_id := cell_id
      _test := is_test }

/-!  `fix_source_position` (lines 113-146).  `ast.walk` enumerates every
node of the tree exactly once and the update is per-node, so the walk is
modelled as a list of location-bearing nodes.  The `lineno`/`col_offset`
slots are three-valued — CPython's AST classes give them no class-level
default, so `getattr(child, name, 0)` yields the fallback `0` when the
instance does not carry the attribute — while `end_lineno` and
`end_col_offset` carry a class-level default of `None` (CPython 3.8+),
so `getattr` on them always resolves to the attribute's value (`None`
or an integer) and the `0` fallback is unreachable; they are modelled
as `Option Int`. -/

/-- A `lineno`/`col_offset` slot of an AST node: `missing` (not set on
the instance, no class default), `pynone` (set to `None`), or
`pyint k`. -/
inductive Attr where
  | missing : Attr
  | pynone : Attr
  | pyint : Int → Attr
deriving DecidableEq

/-- Is the slot an integer? -/
def Attr.isInt : Attr → Bool
  | .pyint _ => true
  | _ => false

/-- `getattr(child, name, 0)` on a `lineno`/`col_offset` slot: a
missing attribute yields the integer default `0`; otherwise the stored
value (`none` standing for Python `None`). -/
def getattr0 : Attr → Option Int
  | .missing => some 0
  | .pynone => none
  | .pyint k => some k

/-- A location-bearing AST node as `fix_source_position` sees it: which
of the four location names appear in the node class's `_attributes`
tuple, whether the node is an `ast.TypeIgnore`, and the four slots
(`end_lineno`/`end_col_offset` resolve through their class-level `None`
default, hence `Option Int`). -/
structure NodeLoc where
  hasLineno : Bool
  hasColOffset : Bool
  hasEndLineno : Bool
  hasEndColOffset : Bool
  isTypeIgnore : Bool
  lineno : Attr
  col_offset : Attr
  end_lineno : Option Int
  end_col_offset : Option Int
deriving DecidableEq

/-- The third and fourth (infallible) blocks of the loop body: the
`end_lineno`/`end_col_offset` updates, each guarded by membership in
`_attributes` and an `is not None` test on what `getattr` resolves to —
the attribute's value, since the class provides a `None` default — so a
`None` end attribute is left untouched and an integer one is shifted. -/
def fix_end_attrs (line_offset col_offset : Int) (c2 : NodeLoc) : NodeLoc :=
  let c3 :=
    if c2.hasEndLineno then
      match c2.end_lineno with
      | none => c2
      | some k => { c2 with end_lineno := some (k + line_offset) }
    else c2
  if c3.hasEndColOffset then
    match c3.end_col_offset with
    | none => c3
    | some k => { c3 with end_col_offset := some (k + col_offset) }
  else c3

/-- The per-node body of `fix_source_position`'s loop.  Adding the
offset to a `None`-valued `lineno`/`col_offset` is a `TypeError` in
Python, modelled as `Except.error`; the `end_lineno`/`end_col_offset`
blocks are guarded by an `is not None` test and cannot fail. -/
def fix_node (line_offset col_offset : Int) (child : NodeLoc) : Except Unit NodeLoc :=
  if child.isTypeIgnore then
    match getattr0 child.lineno with
    | none => .error ()
    | some k => .ok { child with lineno := .pyint (k + line_offset) }
  else
    (do
      let c1 ←
        if child.hasLineno then
          match getattr0 child.lineno with
          | none => Except.error ()
          | some k => Except.ok { child with lineno := Attr.pyint (k + line_offset) }
        else Except.ok child
      let c2 ←
        if c1.hasColOffset then
          match getattr0 c1.col_offset with
          | none => Except.error ()
          | some k => Except.ok { c1 with col_offset := Attr.pyint (k + col_offset) }
        else Except.ok c1
      pure (fix_end_attrs line_offset col_offset c2))

/-- `fix_source_position(node, source_position)`, with the `ast.walk`
enumeration of the tree's nodes as the argument list. -/
def fix_source_position (sp : SourcePosition) (nodes : List NodeLoc) :
    Except Unit (List NodeLoc) :=
  nodes.mapM (fix_node sp.lineno sp.col_offset)

/-!  `cell_id_from_filename` (lines 49-54) uses
`re.findall(r"__marimo__cell_(.*?)_", filename)` and takes the first
match.  The regex engine's leftmost-first search with a lazy group is
modelled directly: scan positions left to right; at each position the
literal marker must match, then the lazy group captures the shortest
run of `.`-matching characters (any character except a newline) up to a
literal `_`. -/

/-- The literal part of the filename pattern. -/
def markerChars : List Char := "__marimo__cell_".data

/-- Does the pattern `.` match this character?  (It matches everything
except a newline.) -/
def dotMatch (c : Char) : Bool := c ≠ '\n'

/-- Does the first list occur literally at the head of the second? -/
def startsWithChars : List Char → List Char → Bool
  | [], _ => true
  | _ :: _, [] => false
  | p :: ps, c :: cs => p = c && startsWithChars ps cs

/-- The lazy group `(.*?)` followed by the literal `_`: the shortest
capture ending at the first `_`, every captured character matching `.`;
no match if no such `_` is reachable. -/
def lazyCapture : List Char → Option (List Char)
  | [] => none
  | c :: cs =>
    if c = '_' then some []
    else if dotMatch c then (lazyCapture cs).map (c :: ·)
    else none

/-- Attempt the whole pattern at this position. -/
def tryMatchAt (cs : List Char) : Option (List Char) :=
  if startsWithChars markerChars cs then lazyCapture (cs.drop markerChars.length)
  else none

/-- The regex engine's search: the first position (left to right) where
the pattern matches, yielding the group's capture. -/
def reFindFirst : List Char → Option (List Char)
  | [] => none
  | c :: cs =>
    match tryMatchAt (c :: cs) with
    | some cap => some cap
    | none => reFindFirst cs

/-- `cell_id_from_filename(filename)` (lines 49-54): the first capture
of the pattern, if any. -/
def cell_id_from_filename (filename : String) : Option String :=
  (reFindFirst filename.data).map fun cap => String.mk cap

/-!  `AppFileManager.rename` (`marimo/_server/file_manager.py`).  The
filesystem, `os.path.abspath` and `canonicalize_filename` (the latter
defined in `marimo/_server/utils.py`, outside the shown sources and
modelled from the spec as an arbitrary canonicalization function) are
host facilities; filesystem writes are recorded as an effect list. -/

/-- Host facilities for the file manager. -/
structure FMHost where
  abspath : String → String
  canonicalize_filename : String → String
  path_exists : String → Bool

/-- The manager's mutable state: the current filename and the loaded
app (kept abstract — `rename`'s no-op path never touches it). -/
structure AppFileManager where
  filename : Option String
  app : Nat
deriving DecidableEq

/-- Filesystem side effects performed by the file manager. -/
inductive FSEffect where
  | createFile : String → FSEffect
  | renameFile : String → String → FSEffect
  | saveFile : String → FSEffect
deriving DecidableEq

/-- `AppFileManager._is_same_path` (lines 79-82). -/
def _is_same_path (h : FMHost) (m : AppFileManager) (fname : String) : Bool :=
  match m.filename with
  | none => false
  | some f => h.abspath f == h.abspath fname

/-- `AppFileManager.rename` (lines 223-251): canonicalize, short-circuit
when the target is the current path, fail when the target exists,
otherwise rename (named notebook, saving again when the three-character
filetype tail changed) or create (unnamed notebook), and update the
stored filename. -/
def rename (h : FMHost) (m : AppFileManager) (new_filename0 : String) :
    Except String (AppFileManager × List FSEffect) :=
  let new_filename := h.canonicalize_filename new_filename0
  if _is_same_path h m new_filename then
    .ok (m, [])
  else if h.path_exists new_filename then
    .error ("File " ++ new_filename ++ " already exists")
  else
    match m.filename with
    | some f =>
      let needs_save := f.takeRight 3 ≠ new_filename.takeRight 3
      .ok ({ m with filename := some new_filename },
        [FSEffect.renameFile f new_filename]
          ++ if needs_save then [FSEffect.saveFile new_filename] else [])
    | none =>
      .ok ({ m with filename := some new_filename },
        [FSEffect.createFile new_filename])

/-!  Concrete instantiations used by witnesses and counterexamples.  The
host hash is instantiated with an injective encoding of strings: the
host's actual string hash is only used as a cache key, and the two
strings compared by each concrete theorem below hash differently under
CPython's (randomized, effectively injective) string hash as well. -/

/-- An injective encoding of a string into a natural number, standing
in for the host's string hash in concrete instantiations. -/
def strEnc (s : String) : Nat :=
  s.data.foldl (fun a c => a * 1114112 + (c.toNat + 1)) 0

/-- A concrete host for witnesses: injective hash, a leading-underscore
locality convention, a rewriter that succeeds without changing the
tree, and a fixed temporary directory. -/
def hostW : Host :=
  { hashStr := strEnc
    is_local := fun n => n.startsWith "_"
    rewrite_asserts := fun m => .ok m
    tmpdir := "/tmp/marimo" }

/-- A concrete host whose assertion rewriter always raises. -/
def hostFail : Host :=
  { hostW with rewrite_asserts := fun _ => .error () }

/-- An empty visitor result for concrete instantiations. -/
def v0 : VisitorResult :=
  { defs := ∅, refs := ∅, deleted_refs := ∅, language := "python", variable_data := [] }

/-!  Projection lemmas for `compile_cell` on a non-empty module. -/

/-- The filename `compile_cell` compiles under: the anchor's file when a
source position is supplied, the synthetic temp-dir filename otherwise. -/
def cellFilename (host : Host) (cell_id : String) (sp : Option SourcePosition) : String :=
  match sp with
  | some p => p.filename
  | none => get_filename host.tmpdir cell_id ""

theorem compile_cell_key_cons (host : Host) (code cid : String) (a : Stmt)
    (l : List Stmt) (tokens : List Tok) (v : VisitorResult)
    (sp : Option SourcePosition) (ci : Option (List ImportData)) (tr : Bool) :
    (compile_cell host code cid (a :: l) tokens v sp ci tr).key
      = host.hashStr (normalize_nbsp code) := rfl

theorem compile_cell_defs_cons (host : Host) (code cid : String) (a : Stmt)
    (l : List Stmt) (tokens : List Tok) (v : VisitorResult)
    (sp : Option SourcePosition) (ci : Option (List ImportData)) (tr : Bool) :
    (compile_cell host code cid (a :: l) tokens v sp ci tr).defs
      = v.defs.filter (fun n => host.is_local n = false) := rfl

theorem compile_cell_temporaries_cons (host : Host) (code cid : String) (a : Stmt)
    (l : List Stmt) (tokens : List Tok) (v : VisitorResult)
    (sp : Option SourcePosition) (ci : Option (List ImportData)) (tr : Bool) :
    (compile_cell host code cid (a :: l) tokens v sp ci tr).temporaries
      = v.defs \ v.defs.filter (fun n => host.is_local n = false) := rfl

theorem compile_cell_variable_data_cons (host : Host) (code cid : String) (a : Stmt)
    (l : List Stmt) (tokens : List Tok) (v : VisitorResult)
    (sp : Option SourcePosition) (ci : Option (List ImportData)) (tr : Bool) :
    (compile_cell host code cid (a :: l) tokens v sp ci tr).variable_data
      = project_variable_data (v.defs.filter (fun n => host.is_local n = false))
          v.variable_data := rfl

theorem compile_cell_test_cons (host : Host) (code cid : String) (a : Stmt)
    (l : List Stmt) (tokens : List Tok) (v : VisitorResult)
    (sp : Option SourcePosition) (ci : Option (List ImportData)) (tr : Bool) :
    (compile_cell host code cid (a :: l) tokens v sp ci tr)._test
      = contains_only_tests (a :: l) := rfl

theorem compile_cell_import_workspace_cons (host : Host) (code cid : String) (a : Stmt)
    (l : List Stmt) (tokens : List Tok) (v : VisitorResult)
    (sp : Option SourcePosition) (ci : Option (List ImportData)) (tr : Bool) :
    (compile_cell host code cid (a :: l) tokens v sp ci tr).import_workspace
      = { is_import_block := (a :: l).all is_import_stmt
          imported_defs :=
            match ci with
            | some cil =>
              if (a :: l).all is_import_stmt then
                carried_import_defs
                  (project_variable_data
                    (v.defs.filter (fun n => host.is_local n = false)) v.variable_data)
                  cil
              else ∅
            | none => ∅ } := rfl

/-- C4: an input whose parsed body is empty compiles to an inert cell:
empty defs, refs and temporaries, no statement-body artifact, no
trailing-expression evaluator, and the key is the hash of the empty
text; `compile_cell` returns this record normally. -/
theorem compile_cell_empty_module (host : Host) (code cid : String)
    (tokens : List Tok) (v : VisitorResult) (sp : Option SourcePosition)
    (ci : Option (List ImportData)) (tr : Bool) :
    compile_cell host code cid [] tokens v sp ci tr =
      { key := host.hashStr ""
        code := normalize_nbsp code
        mod := []
        defs := ∅
        refs := ∅
        temporaries := ∅
        variable_data := []
        import_workspace := { is_import_block := false, imported_defs := ∅ }
        deleted_refs := ∅
        language := "python"
        body := none
        last_expr := none
        cell_id := cid
        _test := false } := rfl

/-- The concrete module for the C1 counterexample: the parse of
`"x = 1"` (a single assignment). -/
def mC1 : List Stmt := [{ kind := .otherStmt, lineno := 1, end_col_offset := some 6 }]

/-- C1 (counterexample): for the input text `"x<nbsp>= 1"` — which
contains a non-breaking space and parses (after normalization) to a
single assignment — the key is not the hash of the original text as
passed in: line 161 replaces non-breaking spaces before line 275 hashes
`code`, so the hash is taken over the normalized text. -/
theorem compile_cell_key_not_original_text :
    (compile_cell hostW "x\u00A0= 1" "c1" mC1 [] v0 none none false).key
      ≠ hostW.hashStr "x\u00A0= 1" := by decide

/-- C1 (amended): the key equals the hash of the NBSP-normalized user
text when the parsed body is non-empty, and the hash of the empty
string when it is empty; the key does not depend on the token stream,
the visitor result, the anchor, the carried imports or the rewrite
flag, so identical user text always produces an identical key. -/
theorem compile_cell_key_normalized (host : Host) (code cid : String)
    (module : List Stmt) (tokens : List Tok) (v : VisitorResult)
    (sp : Option SourcePosition) (ci : Option (List ImportData)) (tr : Bool)
    (tokens2 : List Tok) (v2 : VisitorResult) (sp2 : Option SourcePosition)
    (ci2 : Option (List ImportData)) (tr2 : Bool) :
    (compile_cell host code cid module tokens v sp ci tr).key
        = (if module.isEmpty then host.hashStr "" else host.hashStr (normalize_nbsp code))
      ∧ (compile_cell host code cid module tokens v sp ci tr).key
        = (compile_cell host code cid module tokens2 v2 sp2 ci2 tr2).key := by
  cases module with
  | nil => exact ⟨rfl, rfl⟩
  | cons a l => exact ⟨rfl, rfl⟩

/-- C10: renaming to a path that canonicalizes to the current file's
absolute path is a no-op: the manager state (filename and app) is
returned unchanged and no filesystem effect is performed. -/
theorem rename_same_path_noop (h : FMHost) (m : AppFileManager) (nf f : String)
    (hm : m.filename = some f)
    (hpath : h.abspath f = h.abspath (h.canonicalize_filename nf)) :
    rename h m nf = Except.ok (m, []) := by
  unfold rename _is_same_path
  rw [hm]
  simp [hpath]

/-- A concrete file-manager host: identity canonicalization and path
resolution, no existing files. -/
def fmHostW : FMHost :=
  { abspath := id, canonicalize_filename := id, path_exists := fun _ => false }

/-- A concrete named manager state. -/
def fmW : AppFileManager := { filename := some "nb.py", app := 0 }

/-- Witness for `rename_same_path_noop` at a concrete manager. -/
theorem rename_same_path_noop_witness :
    fmW.filename = some "nb.py"
      ∧ fmHostW.abspath "nb.py" = fmHostW.abspath (fmHostW.canonicalize_filename "nb.py")
      ∧ rename fmHostW fmW "nb.py" = Except.ok (fmW, []) :=
  ⟨rfl, rfl, rename_same_path_noop fmHostW fmW "nb.py" "nb.py" rfl rfl⟩

/-!  The filename round trip (C9). -/

theorem markerChars_data : "__marimo__cell_".data = markerChars := rfl

theorem startsWithChars_append (l r : List Char) : startsWithChars l (l ++ r) = true := by
  induction l with
  | nil => rfl
  | cons c t ih => simp [startsWithChars, ih]

theorem tryMatchAt_marker (x : List Char) :
    tryMatchAt (markerChars ++ x) = lazyCapture x := by
  unfold tryMatchAt
  rw [startsWithChars_append, if_pos rfl, List.drop_left]

theorem tryMatchAt_not_underscore (c : Char) (cs : List Char) (hc : c ≠ '_') :
    tryMatchAt (c :: cs) = none := by
  unfold tryMatchAt
  have h : startsWithChars markerChars (c :: cs) = false := by
    have hcc : ('_' = c) = False := by simp [eq_comm, hc]
    simp [markerChars, startsWithChars, hcc]
  rw [h]
  simp

theorem reFindFirst_skip (pre rest : List Char) (h : ∀ c ∈ pre, c ≠ '_') :
    reFindFirst (pre ++ rest) = reFindFirst rest := by
  induction pre with
  | nil => rfl
  | cons c t ih =>
    rw [List.cons_append, reFindFirst,
      tryMatchAt_not_underscore c (t ++ rest) (h c (by simp))]
    exact ih fun d hd => h d (by simp [hd])

theorem reFindFirst_head_match (l cap : List Char) (h : tryMatchAt l = some cap) :
    reFindFirst l = some cap := by
  cases l with
  | nil =>
    exfalso
    rw [tryMatchAt] at h
    simp [markerChars, startsWithChars] at h
  | cons c cs => rw [reFindFirst, h]

theorem lazyCapture_clean (cs tail : List Char)
    (h : ∀ c ∈ cs, c ≠ '_' ∧ c ≠ '\n') :
    lazyCapture (cs ++ '_' :: tail) = some cs := by
  induction cs with
  | nil => rfl
  | cons c t ih =>
    obtain ⟨h1, h2⟩ := h c (by simp)
    rw [List.cons_append, lazyCapture]
    simp [h1, dotMatch, h2, ih fun d hd => h d (by simp [hd])]

/-- C9 (counterexample): the round trip fails for a cell id containing
an underscore: the lazy group of `__marimo__cell_(.*?)_` stops at the
first underscore of the id, so `"a_b"` comes back as `"a"`. -/
theorem cell_id_roundtrip_counterexample :
    cell_id_from_filename (get_filename "/tmp/marimo" "a_b" "") = some "a"
      ∧ some "a" ≠ some "a_b" := by
  refine ⟨by decide, by decide⟩

/-- C9 (amended): the inverse parser recovers the cell id from the
synthetic filename provided the cell id contains no underscore and no
newline (an underscore truncates the recovered id at its first
occurrence; a newline defeats the `.`-based group) and the temporary
directory path is free of underscores (so the literal marker cannot
occur before the real one). -/
theorem cell_id_roundtrip (tmpdir cid sfx : String)
    (ht : ∀ c ∈ tmpdir.data, c ≠ '_')
    (hc : ∀ c ∈ cid.data, c ≠ '_' ∧ c ≠ '\n') :
    cell_id_from_filename (get_filename tmpdir cid sfx) = some cid := by
  have hcap : lazyCapture (cid.data ++ '_' :: (sfx.data ++ ".py".data)) = some cid.data :=
    lazyCapture_clean _ _ hc
  have hfind :
      reFindFirst (markerChars ++ (cid.data ++ '_' :: (sfx.data ++ ".py".data)))
        = some cid.data :=
    reFindFirst_head_match _ _ (by rw [tryMatchAt_marker, hcap])
  have hstr : (get_filename tmpdir cid sfx).data
      = (if tmpdir.data.getLast? = some '/' then tmpdir.data else tmpdir.data ++ ['/'])
          ++ (markerChars ++ (cid.data ++ '_' :: (sfx.data ++ ".py".data))) := by
    unfold get_filename joinPath
    by_cases he : tmpdir.data.getLast? = some '/' <;>
      simp [he, String.data_append, markerChars, List.append_assoc]
  have hpre : ∀ c ∈ (if tmpdir.data.getLast? = some '/' then tmpdir.data
      else tmpdir.data ++ ['/']), c ≠ '_' := by
    split
    · exact ht
    · intro c hcm
      rcases List.mem_append.mp hcm with h | h
      · exact ht c h
      · simp at h
        subst h
        decide
  unfold cell_id_from_filename
  rw [hstr, reFindFirst_skip _ _ hpre, hfind]
  cases cid
  rfl

/-- Witness for `cell_id_roundtrip` at a concrete id and suffix. -/
theorem cell_id_roundtrip_witness :
    (∀ c ∈ "/tmp/marimo".data, c ≠ '_')
      ∧ (∀ c ∈ "abc12".data, c ≠ '_' ∧ c ≠ '\n')
      ∧ cell_id_from_filename (get_filename "/tmp/marimo" "abc12" "X") = some "abc12" :=
  ⟨by decide, by decide, cell_id_roundtrip "/tmp/marimo" "abc12" "X" (by decide) (by decide)⟩

/-!  The trailing-expression split (C2). -/

/-- `nbmap` maps no character to or from a line-break character. -/
theorem isLineBreak_nbmap (c : Char) : isLineBreak (nbmap c) = isLineBreak c := by
  by_cases hc : c = '\u00A0'
  · rw [hc]; decide
  · rw [nbmap, if_neg hc]

theorem nbmap_eq_cr (c : Char) (h : nbmap c = '\r') : c = '\r' := by
  by_cases hc : c = '\u00A0'
  · rw [nbmap, if_pos hc] at h; cases h
  · rwa [nbmap, if_neg hc] at h

theorem nbmap_eq_lf (c : Char) (h : nbmap c = '\n') : c = '\n' := by
  by_cases hc : c = '\u00A0'
  · rw [nbmap, if_pos hc] at h; cases h
  · rwa [nbmap, if_neg hc] at h

/-- Replacing non-breaking spaces with spaces maps no character to or
from a line boundary, so the line count is unchanged. -/
theorem slAux_nbsp (l : List Char) (b : Bool) :
    slAux (l.map nbmap) b = slAux l b := by
  induction l, b using slAux.induct with
  | case1 => rfl
  | case2 b hb => rfl
  | case3 cs x ih =>
    show slAux (nbmap '\r' :: nbmap '\n' :: cs.map nbmap) x = _
    rw [show nbmap '\r' = '\r' from rfl, show nbmap '\n' = '\n' from rfl]
    rw [slAux, slAux]
    exact congrArg (1 + ·) ih
  | case4 c cs x h hbr ih =>
    rw [List.map_cons, slAux.eq_3 x (nbmap c) (cs.map nbmap) ?side1,
      slAux.eq_3 x c cs h, isLineBreak_nbmap, hbr, if_pos rfl, if_pos rfl, ih]
    case side1 =>
      intro cs2 hc hcs
      cases hm : cs with
      | nil => rw [hm] at hcs; cases hcs
      | cons d cs3 =>
        rw [hm, List.map_cons] at hcs
        obtain ⟨hd, _⟩ := List.cons_eq_cons.mp hcs
        exact h cs3 (nbmap_eq_cr c hc) (by rw [hm, nbmap_eq_lf d hd])
  | case5 c cs x h hbr ih =>
    rw [List.map_cons, slAux.eq_3 x (nbmap c) (cs.map nbmap) ?side2,
      slAux.eq_3 x c cs h, isLineBreak_nbmap, if_neg hbr, if_neg hbr, ih]
    case side2 =>
      intro cs2 hc hcs
      cases hm : cs with
      | nil => rw [hm] at hcs; cases hcs
      | cons d cs3 =>
        rw [hm, List.map_cons] at hcs
        obtain ⟨hd, _⟩ := List.cons_eq_cons.mp hcs
        exact h cs3 (nbmap_eq_cr c hc) (by rw [hm, nbmap_eq_lf d hd])

/-- `len(code.splitlines())` is unchanged by NBSP normalization. -/
theorem splitlinesCount_normalize (s : String) :
    splitlinesCount (normalize_nbsp s) = splitlinesCount s :=
  slAux_nbsp s.data false

theorem split_trailing_expr_case (code : String) (module : List Stmt)
    (tokens : List Tok) (final : Stmt) (val : PExpr)
    (hlast : module.getLast? = some final)
    (hkind : final.kind = StmtKind.exprStmt val)
    (hsemi : ends_with_semicolon tokens = false) :
    split_trailing code module tokens
      = (module.dropLast,
         { value := val, lineno := final.lineno,
           col_offset := final.end_col_offset,
           end_col_offset := final.end_col_offset }) := by
  unfold split_trailing
  rw [hlast]
  simp [hkind, hsemi]

theorem split_trailing_none_case (code : String) (module : List Stmt)
    (tokens : List Tok) (final : Stmt)
    (hlast : module.getLast? = some final)
    (hother : (∀ val, final.kind ≠ StmtKind.exprStmt val)
      ∨ ends_with_semicolon tokens = true) :
    split_trailing code module tokens = (module, noneExpression code final) := by
  unfold split_trailing
  rw [hlast]
  rcases hother with h | h
  · cases hk : final.kind
    case exprStmt val => exact absurd hk (h val)
    all_goals simp [hk]
  · cases hk : final.kind
    all_goals simp [hk, h]

theorem compile_cell_last_expr_cons (host : Host) (code cid : String) (a : Stmt)
    (l : List Stmt) (tokens : List Tok) (v : VisitorResult)
    (sp : Option SourcePosition) (ci : Option (List ImportData)) (tr : Bool) :
    (compile_cell host code cid (a :: l) tokens v sp ci tr).last_expr
      = some { expression := (split_trailing (normalize_nbsp code) (a :: l) tokens).2
               filename := cellFilename host cid sp } := by
  cases sp <;> rfl

/-- C2: for a non-empty parsed module, if the last top-level statement
is a bare expression and the last semantically meaningful token is not
a semicolon, the trailing-expression evaluator carries exactly that
expression anchored at its original line (and the expression is popped
off the statement body); otherwise the evaluator carries a synthesized
`None` constant anchored one line past the last line of the cell's
source text. -/
theorem compile_cell_trailing_expression (host : Host) (code cid : String)
    (module : List Stmt) (tokens : List Tok) (v : VisitorResult)
    (sp : Option SourcePosition) (ci : Option (List ImportData)) (tr : Bool)
    (final : Stmt) (hlast : module.getLast? = some final) :
    (∀ val, final.kind = StmtKind.exprStmt val → ends_with_semicolon tokens = false →
        (compile_cell host code cid module tokens v sp ci tr).last_expr
          = some { expression := { value := val, lineno := final.lineno,
                                   col_offset := final.end_col_offset,
                                   end_col_offset := final.end_col_offset }
                   filename := cellFilename host cid sp }
          ∧ (split_trailing (normalize_nbsp code) module tokens).1 = module.dropLast)
      ∧ (((∀ val, final.kind ≠ StmtKind.exprStmt val) ∨ ends_with_semicolon tokens = true) →
        (compile_cell host code cid module tokens v sp ci tr).last_expr
          = some { expression := { value := PExpr.constNone,
                                   lineno := (splitlinesCount code : Int) + 1,
                                   col_offset := final.end_col_offset,
                                   end_col_offset := final.end_col_offset }
                   filename := cellFilename host cid sp }) := by
  cases module with
  | nil => simp at hlast
  | cons a l =>
    constructor
    · intro val hkind hsemi
      have hs := split_trailing_expr_case (normalize_nbsp code) (a :: l) tokens
        final val hlast hkind hsemi
      refine ⟨?_, by rw [hs]⟩
      rw [compile_cell_last_expr_cons, hs]
    · intro hother
      have hs := split_trailing_none_case (normalize_nbsp code) (a :: l) tokens
        final hlast hother
      rw [compile_cell_last_expr_cons, hs]
      unfold noneExpression
      rw [splitlinesCount_normalize]

/-- A concrete module whose last statement is a bare expression. -/
def mC2 : List Stmt :=
  [{ kind := .otherStmt, lineno := 1, end_col_offset := some 5 },
   { kind := .exprStmt (.atom 0), lineno := 2, end_col_offset := some 5 }]

/-- Witness for `compile_cell_trailing_expression` at a concrete cell
(`x = 1` followed by the bare expression `x + 1`, no semicolon). -/
theorem compile_cell_trailing_expression_witness :
    mC2.getLast? = some { kind := .exprStmt (.atom 0), lineno := 2, end_col_offset := some 5 }
      ∧ ((∀ val,
            ({ kind := .exprStmt (.atom 0), lineno := 2, end_col_offset := some 5 } : Stmt).kind
                = StmtKind.exprStmt val →
            ends_with_semicolon [] = false →
            (compile_cell hostW "x = 1\nx + 1" "c2" mC2 [] v0 none none false).last_expr
              = some { expression := { value := val, lineno := 2,
                                       col_offset := some 5, end_col_offset := some 5 }
                       filename := cellFilename hostW "c2" none }
              ∧ (split_trailing (normalize_nbsp "x = 1\nx + 1") mC2 []).1 = mC2.dropLast)
          ∧ (((∀ val,
                ({ kind := .exprStmt (.atom 0), lineno := 2, end_col_offset := some 5 } : Stmt).kind
                    ≠ StmtKind.exprStmt val)
              ∨ ends_with_semicolon [] = true) →
            (compile_cell hostW "x = 1\nx + 1" "c2" mC2 [] v0 none none false).last_expr
              = some { expression := { value := PExpr.constNone,
                                       lineno := (splitlinesCount "x = 1\nx + 1" : Int) + 1,
                                       col_offset := some 5, end_col_offset := some 5 }
                       filename := cellFilename hostW "c2" none })) :=
  ⟨rfl, compile_cell_trailing_expression hostW "x = 1\nx + 1" "c2" mC2 [] v0 none none false
    { kind := .exprStmt (.atom 0), lineno := 2, end_col_offset := some 5 } rfl⟩

/-!  Disjointness of defs and temporaries (C3). -/

theorem project_variable_data_mem (nonlocals : Finset String)
    (vdata : List (String × List VarDatum)) (p : String × List VarDatum)
    (hp : p ∈ project_variable_data nonlocals vdata) : p.1 ∈ nonlocals := by
  unfold project_variable_data at hp
  rw [List.mem_filterMap] at hp
  obtain ⟨n, hn, he⟩ := hp
  rcases Option.map_eq_some'.mp he with ⟨d, _, hpd⟩
  rw [← hpd]
  exact (Finset.mem_sort _).mp hn

/-- C3: in every compiled cell, the externally visible defs and the
purely local temporaries are disjoint sets, and every name keyed in
`variable_data` is a member of `defs`. -/
theorem compile_cell_defs_temporaries_disjoint (host : Host) (code cid : String)
    (module : List Stmt) (tokens : List Tok) (v : VisitorResult)
    (sp : Option SourcePosition) (ci : Option (List ImportData)) (tr : Bool) :
    Disjoint (compile_cell host code cid module tokens v sp ci tr).defs
        (compile_cell host code cid module tokens v sp ci tr).temporaries
      ∧ ∀ p ∈ (compile_cell host code cid module tokens v sp ci tr).variable_data,
          p.1 ∈ (compile_cell host code cid module tokens v sp ci tr).defs := by
  cases module with
  | nil =>
    rw [compile_cell_empty_module]
    exact ⟨Finset.disjoint_empty_left _, fun p hp => absurd hp (List.not_mem_nil p)⟩
  | cons a l =>
    rw [compile_cell_defs_cons, compile_cell_temporaries_cons,
      compile_cell_variable_data_cons]
    exact ⟨Finset.disjoint_sdiff, fun p hp => project_variable_data_mem _ _ p hp⟩

/-- Witness for `compile_cell_defs_temporaries_disjoint` at a concrete
cell and visitor result. -/
theorem compile_cell_defs_temporaries_disjoint_witness :
    Disjoint (compile_cell hostW "x = 1" "c3" mC1 [] v0 none none false).defs
        (compile_cell hostW "x = 1" "c3" mC1 [] v0 none none false).temporaries
      ∧ ∀ p ∈ (compile_cell hostW "x = 1" "c3" mC1 [] v0 none none false).variable_data,
          p.1 ∈ (compile_cell hostW "x = 1" "c3" mC1 [] v0 none none false).defs :=
  compile_cell_defs_temporaries_disjoint hostW "x = 1" "c3" mC1 [] v0 none none false

/-!  Test-only and import-only classification (C5). -/

/-- The classification `contains_only_tests` actually computes: either
every statement of the body is a test-named definition, or the body
decomposes as a (possibly empty) run of test-named definitions followed
by a bare return (and then anything). -/
def TestOnly (l : List Stmt) : Prop :=
  (∀ s ∈ l, is_test_def s = true)
    ∨ ∃ pre s rest, l = pre ++ s :: rest ∧ s.kind = StmtKind.returnStmt
        ∧ ∀ t ∈ pre, is_test_def t = true

theorem cotl_cons_test (a : Stmt) (t : List Stmt) (ha : is_test_def a = true) :
    contains_only_tests_loop (a :: t) = contains_only_tests_loop t := by
  cases hk : a.kind <;> simp [is_test_def, hk] at ha <;>
    simp [contains_only_tests_loop, hk, ha]

theorem cotl_cons_nontest (a : Stmt) (t : List Stmt) (ha : is_test_def a = false)
    (hnr : a.kind ≠ StmtKind.returnStmt) :
    contains_only_tests_loop (a :: t) = false := by
  cases hk : a.kind
  case returnStmt => exact absurd hk hnr
  case functionDef name =>
    simp [is_test_def, hk] at ha
    simp [contains_only_tests_loop, hk, ha]
  case asyncFunctionDef name =>
    simp [is_test_def, hk] at ha
    simp [contains_only_tests_loop, hk, ha]
  case classDef name =>
    simp [is_test_def, hk] at ha
    simp [contains_only_tests_loop, hk, ha]
  all_goals simp [contains_only_tests_loop, hk]

theorem testOnly_cons_return (a : Stmt) (t : List Stmt)
    (h : a.kind = StmtKind.returnStmt) : TestOnly (a :: t) :=
  Or.inr ⟨[], a, t, by simp, h, by simp⟩

theorem testOnly_cons_test (a : Stmt) (t : List Stmt) (ha : is_test_def a = true)
    (hnr : a.kind ≠ StmtKind.returnStmt) : TestOnly (a :: t) ↔ TestOnly t := by
  constructor
  · rintro (h | ⟨pre, s, rest, heq, hret, hpre⟩)
    · exact Or.inl fun s hs => h s (List.mem_cons_of_mem a hs)
    · cases pre with
      | nil =>
        rw [List.nil_append] at heq
        have has : a = s := (List.cons_eq_cons.mp heq).1
        exact absurd (by rw [has]; exact hret) hnr
      | cons p pre2 =>
        rw [List.cons_append, List.cons_eq_cons] at heq
        exact Or.inr ⟨pre2, s, rest, heq.2, hret,
          fun u hu => hpre u (List.mem_cons_of_mem p hu)⟩
  · rintro (h | ⟨pre, s, rest, heq, hret, hpre⟩)
    · exact Or.inl fun s hs => by
        rcases List.mem_cons.mp hs with h1 | h1
        · exact h1 ▸ ha
        · exact h s h1
    · refine Or.inr ⟨a :: pre, s, rest, by rw [heq, List.cons_append], hret, ?_⟩
      intro u hu
      rcases List.mem_cons.mp hu with h1 | h1
      · exact h1 ▸ ha
      · exact hpre u h1

theorem testOnly_cons_bad (a : Stmt) (t : List Stmt) (ha : is_test_def a = false)
    (hnr : a.kind ≠ StmtKind.returnStmt) : ¬ TestOnly (a :: t) := by
  rintro (h | ⟨pre, s, rest, heq, hret, hpre⟩)
  · rw [h a (List.mem_cons_self a t)] at ha
    cases ha
  · cases pre with
    | nil =>
      rw [List.nil_append] at heq
      exact hnr ((List.cons_eq_cons.mp heq).1 ▸ hret)
    | cons p pre2 =>
      have hap : a = p := (List.cons_eq_cons.mp (by rw [List.cons_append] at heq; exact heq)).1
      rw [hpre a (hap ▸ List.mem_cons_self p pre2)] at ha
      cases ha

theorem contains_only_tests_loop_iff (l : List Stmt) :
    contains_only_tests_loop l = true ↔ TestOnly l := by
  induction l with
  | nil => exact ⟨fun _ => Or.inl (by simp), fun _ => rfl⟩
  | cons a t ih =>
    by_cases hr : a.kind = StmtKind.returnStmt
    · refine ⟨fun _ => testOnly_cons_return a t hr, fun _ => ?_⟩
      simp [contains_only_tests_loop, hr]
    · cases ha : is_test_def a
      · rw [cotl_cons_nontest a t ha hr]
        exact iff_of_false (by simp) (testOnly_cons_bad a t ha hr)
      · rw [cotl_cons_test a t ha, ih, testOnly_cons_test a t ha hr]

/-- Under the side condition that no top-level bare return occurs, the
decomposition `contains_only_tests` computes is equivalent to the
claim's classification: all statements are test-named definitions, or
the body contains a bare return. -/
theorem testOnly_iff_of_no_return (l : List Stmt)
    (h : ∀ s ∈ l, s.kind ≠ StmtKind.returnStmt) :
    TestOnly l ↔
      ((∀ s ∈ l, is_test_def s = true) ∨ ∃ s ∈ l, s.kind = StmtKind.returnStmt) := by
  constructor
  · rintro (ht | ⟨pre, s, rest, heq, hret, hpre⟩)
    · exact Or.inl ht
    · exact Or.inr ⟨s, by
        rw [heq]
        exact List.mem_append_right pre (List.mem_cons_self s rest), hret⟩
  · rintro (ht | ⟨s, hs, hret⟩)
    · exact Or.inl ht
    · exact absurd hret (h s hs)

/-- C5: for every non-empty parsed module on which compilation
completes — i.e. with no top-level bare return, since a top-level
`return` parses under `PyCF_ONLY_AST` but makes the host bytecode
compile of the statement body (line 244) raise `SyntaxError`, so no
`CellImpl` is ever returned for such input — the cell is marked
test-only exactly when every top-level statement is a function/class
definition whose name case-insensitively starts with `test`, or the
body contains a bare return; and it is marked import-only exactly when
every top-level statement is one of the two import-statement node
kinds. -/
theorem compile_cell_classification (host : Host) (code cid : String)
    (module : List Stmt) (tokens : List Tok) (v : VisitorResult)
    (sp : Option SourcePosition) (ci : Option (List ImportData)) (tr : Bool)
    (hne : module ≠ [])
    (hcompiles : ∀ s ∈ module, s.kind ≠ StmtKind.returnStmt) :
    ((compile_cell host code cid module tokens v sp ci tr)._test = true ↔
        ((∀ s ∈ module, is_test_def s = true)
          ∨ ∃ s ∈ module, s.kind = StmtKind.returnStmt))
      ∧ ((compile_cell host code cid module tokens v sp ci tr).import_workspace.is_import_block
            = true
          ↔ ∀ s ∈ module, is_import_stmt s = true) := by
  cases module with
  | nil => exact absurd rfl hne
  | cons a l =>
    constructor
    · rw [compile_cell_test_cons]
      exact (contains_only_tests_loop_iff (a :: l)).trans
        (testOnly_iff_of_no_return (a :: l) hcompiles)
    · rw [compile_cell_import_workspace_cons]
      exact List.all_eq_true

/-- The concrete body for the C5 and C6 witnesses: a single import. -/
def mOS : List Stmt := [{ kind := .importStmt, lineno := 1, end_col_offset := some 9 }]

/-- Witness for `compile_cell_classification` at a concrete import-only
cell. -/
theorem compile_cell_classification_witness :
    mOS ≠ ([] : List Stmt)
      ∧ (∀ s ∈ mOS, s.kind ≠ StmtKind.returnStmt)
      ∧ (((compile_cell hostW "import os" "c5w" mOS [] v0 none none false)._test = true
            ↔ ((∀ s ∈ mOS, is_test_def s = true)
                ∨ ∃ s ∈ mOS, s.kind = StmtKind.returnStmt))
          ∧ ((compile_cell hostW "import os" "c5w" mOS [] v0 none none
                false).import_workspace.is_import_block = true
            ↔ ∀ s ∈ mOS, is_import_stmt s = true)) :=
  ⟨by decide, by decide,
   compile_cell_classification hostW "import os" "c5w" mOS [] v0 none none false
     (by decide) (by decide)⟩

/-!  Carried-over import definitions (C6). -/

theorem carried_import_defs_mem (vdata : List (String × List VarDatum))
    (cil : List ImportData) (x : String) :
    x ∈ carried_import_defs vdata cil ↔
      ∃ p ∈ vdata, ∃ d ∈ p.2, ∃ idat, d.import_data = some idat
        ∧ idat ∈ cil ∧ idat.definition = x := by
  unfold carried_import_defs
  rw [List.mem_toFinset, List.mem_flatMap]
  constructor
  · rintro ⟨p, hp, hx⟩
    rw [List.mem_filterMap] at hx
    obtain ⟨d, hd, hmatch⟩ := hx
    refine ⟨p, hp, d, hd, ?_⟩
    cases hid : d.import_data with
    | none => rw [hid] at hmatch; simp at hmatch
    | some idat =>
      rw [hid] at hmatch
      by_cases hin : idat ∈ cil
      · simp only [if_pos hin, Option.some.injEq] at hmatch
        exact ⟨idat, rfl, hin, hmatch⟩
      · simp [hin] at hmatch
  · rintro ⟨p, hp, d, hd, idat, hid, hin, hdef⟩
    refine ⟨p, hp, ?_⟩
    rw [List.mem_filterMap]
    exact ⟨d, hd, by rw [hid]; simp [hin, hdef]⟩

theorem compile_cell_is_import_block_cons (host : Host) (code cid : String) (a : Stmt)
    (l : List Stmt) (tokens : List Tok) (v : VisitorResult)
    (sp : Option SourcePosition) (ci : Option (List ImportData)) (tr : Bool) :
    (compile_cell host code cid (a :: l) tokens v sp ci tr).import_workspace.is_import_block
      = (a :: l).all is_import_stmt := rfl

theorem compile_cell_imported_defs_proj_cons (host : Host) (code cid : String) (a : Stmt)
    (l : List Stmt) (tokens : List Tok) (v : VisitorResult)
    (sp : Option SourcePosition) (ci : Option (List ImportData)) (tr : Bool) :
    (compile_cell host code cid (a :: l) tokens v sp ci tr).import_workspace.imported_defs
      = match ci with
        | some cil =>
          if (a :: l).all is_import_stmt then
            carried_import_defs
              (project_variable_data
                (v.defs.filter (fun n => host.is_local n = false)) v.variable_data)
              cil
          else ∅
        | none => ∅ := rfl

/-- C6: the import workspace's `imported_defs` is non-empty only when
the cell is import-only and carried imports were supplied, and then a
name is in it exactly when some metadata entry of the cell's
`variable_data` carries an import descriptor structurally equal to a
supplied one and binding that name. -/
theorem compile_cell_imported_defs (host : Host) (code cid : String)
    (module : List Stmt) (tokens : List Tok) (v : VisitorResult)
    (sp : Option SourcePosition) (ci : Option (List ImportData)) (tr : Bool) :
    ((compile_cell host code cid module tokens v sp ci tr).import_workspace.imported_defs ≠ ∅ →
        (compile_cell host code cid module tokens v sp ci tr).import_workspace.is_import_block
            = true
          ∧ ci ≠ none)
      ∧ ∀ cil, ci = some cil →
          (compile_cell host code cid module tokens v sp ci tr).import_workspace.is_import_block
              = true →
          ∀ x, x ∈ (compile_cell host code cid module tokens v sp ci tr).import_workspace.imported_defs
            ↔ ∃ p ∈ (compile_cell host code cid module tokens v sp ci tr).variable_data,
                ∃ d ∈ p.2, ∃ idat, d.import_data = some idat
                  ∧ idat ∈ cil ∧ idat.definition = x := by
  cases module with
  | nil =>
    rw [compile_cell_empty_module]
    constructor
    · intro h
      exact absurd rfl h
    · intro cil hci hib
      exact absurd hib (by simp)
  | cons a l =>
    constructor
    · intro hne
      rw [compile_cell_imported_defs_proj_cons] at hne
      cases ci with
      | none => exact absurd rfl hne
      | some cil =>
        by_cases hib : (a :: l).all is_import_stmt
        · exact ⟨by rw [compile_cell_is_import_block_cons]; exact hib, by simp⟩
        · simp [hib] at hne
    · intro cil hci hib x
      subst hci
      rw [compile_cell_is_import_block_cons] at hib
      rw [compile_cell_imported_defs_proj_cons, compile_cell_variable_data_cons]
      simp only [hib, if_true]
      exact carried_import_defs_mem _ cil x

/-- The import descriptor for `import os`. -/
def idOS : ImportData := { definition := "os", module := "os", imported_symbol := none }

/-- A visitor result for `import os`. -/
def vOS : VisitorResult :=
  { defs := {"os"}, refs := ∅, deleted_refs := ∅, language := "python",
    variable_data := [("os", [{ import_data := some idOS }])] }

/-- Witness for `compile_cell_imported_defs`: recompiling `import os`
with the same import descriptor carried over marks `os` as carried. -/
theorem compile_cell_imported_defs_witness :
    ((some [idOS] : Option (List ImportData)) = some [idOS])
      ∧ (compile_cell hostW "import os" "c6" mOS [] vOS none (some [idOS])
            false).import_workspace.is_import_block = true
      ∧ ("os" ∈ (compile_cell hostW "import os" "c6" mOS [] vOS none (some [idOS])
            false).import_workspace.imported_defs
          ↔ ∃ p ∈ (compile_cell hostW "import os" "c6" mOS [] vOS none (some [idOS])
                false).variable_data,
              ∃ d ∈ p.2, ∃ idat, d.import_data = some idat
                ∧ idat ∈ [idOS] ∧ idat.definition = "os") :=
  ⟨rfl, by decide,
   (compile_cell_imported_defs hostW "import os" "c6" mOS [] vOS none (some [idOS])
      false).2 [idOS] rfl (by decide) "os"⟩

/-!  Assertion-rewrite failure tolerance (C7). -/

/-- C7: when the cell is classified test-only or rewriting is
requested, a rewriter that raises on every tree leaves the compiled
cell exactly as produced with a rewriter that returns its input tree
unchanged: the failure is swallowed and the unmodified tree is
compiled; `compile_cell` (a total function here) returns normally. -/
theorem compile_cell_rewrite_failure_harmless (host : Host) (code cid : String)
    (module : List Stmt) (tokens : List Tok) (v : VisitorResult)
    (sp : Option SourcePosition) (ci : Option (List ImportData)) (tr : Bool)
    (hreq : contains_only_tests module = true ∨ tr = true)
    (hfail : ∀ m, host.rewrite_asserts m = Except.error ()) :
    compile_cell host code cid module tokens v sp ci tr
      = compile_cell { host with rewrite_asserts := fun m => Except.ok m }
          code cid module tokens v sp ci tr := by
  cases module with
  | nil => rfl
  | cons a l =>
    unfold compile_cell
    simp only [hfail]
    rfl

/-- Witness for `compile_cell_rewrite_failure_harmless` at a concrete
cell compiled with `test_rewrite=True` and an always-raising rewriter. -/
theorem compile_cell_rewrite_failure_harmless_witness :
    (contains_only_tests mC1 = true ∨ true = true)
      ∧ (∀ m, hostFail.rewrite_asserts m = Except.error ())
      ∧ compile_cell hostFail "x = 1" "c7" mC1 [] v0 none none true
          = compile_cell { hostFail with rewrite_asserts := fun m => Except.ok m }
              "x = 1" "c7" mC1 [] v0 none none true :=
  ⟨Or.inr rfl, fun _ => rfl,
   compile_cell_rewrite_failure_harmless hostFail "x = 1" "c7" mC1 [] v0 none none true
     (Or.inr rfl) (fun _ => rfl)⟩

/-!  The position remapper (C8). -/

/-- The syntactically valid trees `fix_source_position` is applied to:
location attributes listed in `_attributes` are integers when the
attribute is `lineno` or `col_offset`, as on every parser-produced node
(a `None` or absent value there would make the unguarded addition
raise or shift a defaulted `0`); end attributes are unconstrained
(`None` or an integer, as the class default allows). -/
def NodeWF (n : NodeLoc) : Prop :=
  ((n.isTypeIgnore = true ∨ n.hasLineno = true) → n.lineno.isInt = true)
    ∧ (n.isTypeIgnore = false → n.hasColOffset = true → n.col_offset.isInt = true)

instance (n : NodeLoc) : Decidable (NodeWF n) := by
  unfold NodeWF
  infer_instance

/-- The per-node contract of the remapper, stated fieldwise: a
type-ignore node has only its line shifted; otherwise each listed line
attribute is shifted by the line offset and each listed column
attribute by the column offset, a `None`-valued (absent) end attribute
is left untouched (`Option.map`), and an unlisted attribute is left
untouched. -/
def shift_node_spec (line_offset col_offset : Int) (n : NodeLoc) : NodeLoc :=
  if n.isTypeIgnore then
    { n with lineno := Attr.pyint ((getattr0 n.lineno).getD 0 + line_offset) }
  else
    { n with
      lineno :=
        if n.hasLineno then Attr.pyint ((getattr0 n.lineno).getD 0 + line_offset)
        else n.lineno
      col_offset :=
        if n.hasColOffset then Attr.pyint ((getattr0 n.col_offset).getD 0 + col_offset)
        else n.col_offset
      end_lineno :=
        if n.hasEndLineno then n.end_lineno.map (· + line_offset) else n.end_lineno
      end_col_offset :=
        if n.hasEndColOffset then n.end_col_offset.map (· + col_offset)
        else n.end_col_offset }

theorem fix_end_attrs_fieldwise (line_offset col_offset : Int) (n : NodeLoc) :
    fix_end_attrs line_offset col_offset n =
      { n with
        end_lineno :=
          if n.hasEndLineno then n.end_lineno.map (· + line_offset) else n.end_lineno
        end_col_offset :=
          if n.hasEndColOffset then n.end_col_offset.map (· + col_offset)
          else n.end_col_offset } := by
  obtain ⟨hL, hC, hEL, hEC, ti, l, c, el, ec⟩ := n
  cases hEL <;> cases hEC <;> cases el <;> cases ec <;> simp [fix_end_attrs]

theorem fix_node_ok (line_offset col_offset : Int) (n : NodeLoc) (h : NodeWF n) :
    fix_node line_offset col_offset n
      = Except.ok (shift_node_spec line_offset col_offset n) := by
  obtain ⟨h1, h2⟩ := h
  obtain ⟨hL, hC, hEL, hEC, ti, l, c, el, ec⟩ := n
  cases ti
  case false =>
    cases hL
    case true =>
      have hl2 := h1 (Or.inr rfl)
      cases hC
      case true =>
        have hc2 := h2 rfl rfl
        cases l <;> simp [Attr.isInt] at hl2 <;> cases c <;>
          simp [Attr.isInt] at hc2 <;>
          simp [fix_node, shift_node_spec, fix_end_attrs_fieldwise, getattr0,
            Bind.bind, Except.bind, Pure.pure, Except.pure, Except.instMonad]
      case false =>
        cases l <;> simp [Attr.isInt] at hl2 <;> cases c <;>
          simp [fix_node, shift_node_spec, fix_end_attrs_fieldwise, getattr0,
            Bind.bind, Except.bind, Pure.pure, Except.pure, Except.instMonad]
    case false =>
      cases hC
      case true =>
        have hc2 := h2 rfl rfl
        cases l <;> cases c <;> simp [Attr.isInt] at hc2 <;>
          simp [fix_node, shift_node_spec, fix_end_attrs_fieldwise, getattr0,
            Bind.bind, Except.bind, Pure.pure, Except.pure, Except.instMonad]
      case false =>
        cases l <;> cases c <;>
          simp [fix_node, shift_node_spec, fix_end_attrs_fieldwise, getattr0,
            Bind.bind, Except.bind, Pure.pure, Except.pure, Except.instMonad]
  case true =>
    have hl2 := h1 (Or.inl rfl)
    cases l <;> simp [Attr.isInt] at hl2 <;>
      simp [fix_node, shift_node_spec, getattr0]

/-- C8: on every syntactically valid tree (listed `lineno`/`col_offset`
attributes are integers) and for every offset pair, the remapper never
fails and transforms every walked node exactly as the claim states:
each listed line/end-line attribute is shifted by the line offset and
each listed column/end-column attribute by the column offset,
type-ignore nodes have only their line shifted, and an absent end
attribute — which through the class-level default resolves to `None` —
is left untouched rather than defaulted. -/
theorem fix_source_position_spec (sp : SourcePosition) (nodes : List NodeLoc)
    (h : ∀ n ∈ nodes, NodeWF n) :
    fix_source_position sp nodes
      = Except.ok (nodes.map (shift_node_spec sp.lineno sp.col_offset)) := by
  unfold fix_source_position
  induction nodes with
  | nil => rfl
  | cons n t ih =>
    rw [List.mapM_cons, fix_node_ok _ _ n (h n (by simp)),
      ih fun m hm => h m (by simp [hm])]
    rfl

/-- The concrete tree for the C8 witness: a fully-located node with an
absent (`None`-valued) `end_lineno` — left untouched by the remap —
and a type-ignore node. -/
def nodeW : NodeLoc :=
  { hasLineno := true, hasColOffset := true, hasEndLineno := true, hasEndColOffset := true
    isTypeIgnore := false, lineno := Attr.pyint 2, col_offset := Attr.pyint 0
    end_lineno := none, end_col_offset := some 7 }

/-- A type-ignore node for the C8 witness. -/
def nodeTI : NodeLoc :=
  { hasLineno := false, hasColOffset := false, hasEndLineno := false, hasEndColOffset := false
    isTypeIgnore := true, lineno := Attr.pyint 3, col_offset := Attr.pyint 0
    end_lineno := none, end_col_offset := none }

/-- Witness for `fix_source_position_spec` at a concrete tree. -/
theorem fix_source_position_spec_witness :
    (∀ n ∈ [nodeW, nodeTI], NodeWF n)
      ∧ fix_source_position { filename := "f.py", lineno := 10, col_offset := 4 } [nodeW, nodeTI]
          = Except.ok ([nodeW, nodeTI].map (shift_node_spec 10 4)) :=
  ⟨by decide,
   fix_source_position_spec { filename := "f.py", lineno := 10, col_offset := 4 } [nodeW, nodeTI]
     (by decide)⟩

end Marimo
